import Mathlib

/-!
Verification development for the domainmate scanner.

The definitions below are shallow embeddings of the program's source:

* `clean_domain`, `get_parent_domain`, `get_connectable_hostname` embed the
  target-selection helpers of `src/cli.py` (strings are modelled as their
  character lists; Python `str.lower` is modelled by the ASCII `Char.toLower`,
  `str.strip` by removal of leading/trailing whitespace).
* `processDomain` / `runCycle` embed the per-domain aggregation loop of
  `main` in `src/cli.py`; check adapters are modelled as functions returning
  `Except` so that a raised exception is an `Except.error`.
* `RobustResolver.resolve` embeds `src/utils/dns_helpers.py`, with the pool
  attempt and the DNS-over-HTTPS attempt given as parameters (they are
  network effects) and an explicit count of fallback invocations.
* `check_blacklist` pieces embed the RBL answer-filtering loop of
  `src/monitors/blacklist_monitor.py`.
* `NotificationManager.process_and_send` and the digest construction embed
  `src/notifications/manager.py`; wall-clock time is an explicit `Int`
  parameter (seconds), Python's `timedelta(hours=24)` is `86400`.
-/

/-- Status taxonomy shared by all monitors. -/
inductive Status where
  | ok
  | warning
  | critical
  | error
deriving DecidableEq, Repr

/-- Normalized output of a check adapter (a Python result dict). -/
structure CheckResult where
  domain : String
  monitor : String
  status : Status
  message : String
  details : List String := []
deriving DecidableEq, Repr

/-- Mirrors `res.get("status") in ["critical", "error", "warning"]`. -/
def isAlertStatus : Status → Bool
  | .critical => true
  | .error => true
  | .warning => true
  | .ok => false

/-- Mirrors `NotificationManager._get_issue_id`. -/
def issueId (r : CheckResult) : String := r.domain ++ ":" ++ r.monitor

/-- Does the character list start with `sep`?  (Python substring test at position 0.) -/
def leadsWith : List Char → List Char → Bool
  | [], _ => true
  | _ :: _, [] => false
  | a :: as, b :: bs => a = b && leadsWith as bs

/-- First occurrence of `sep` in a character list: the part before it and the
part after it, or `none` when `sep` does not occur. -/
def splitFirst (sep : List Char) : List Char → Option (List Char × List Char)
  | [] => none
  | c :: rest =>
    if leadsWith sep (c :: rest) then some ([], (c :: rest).drop sep.length)
    else
      match splitFirst sep rest with
      | some (pre, post) => some (c :: pre, post)
      | none => none

/-- Python's `l.split(sep)[1]`: the chunk between the first occurrence of
`sep` and the following occurrence (meaningful when `sep` occurs in `l`). -/
def pySecondChunk (sep l : List Char) : List Char :=
  match splitFirst sep l with
  | none => l
  | some (_, rest) =>
    match splitFirst sep rest with
    | none => rest
    | some (pre, _) => pre

/-- Python's `str.strip()`: drop leading and trailing whitespace. -/
def pyStrip (l : List Char) : List Char :=
  ((l.dropWhile Char.isWhitespace).reverse.dropWhile Char.isWhitespace).reverse

/-- The separator `"://"`. -/
def schemeSep : List Char := [':', '/', '/']

/-- Step 1 of `clean_domain`: `if "://" in raw: raw = raw.split("://")[1]`. -/
def cdStep1 (raw : List Char) : List Char :=
  if (splitFirst schemeSep raw).isSome then pySecondChunk schemeSep raw else raw

/-- Step 2 of `clean_domain`: `raw.split("/")[0]`. -/
def cdStep2 (raw : List Char) : List Char :=
  (cdStep1 raw).takeWhile (fun c => c ≠ '/')

/-- Step 3 of `clean_domain`: `.split("?")[0]`. -/
def cdStep3 (raw : List Char) : List Char :=
  (cdStep2 raw).takeWhile (fun c => c ≠ '?')

/-- Step 4 of `clean_domain`: `if ":" in raw: raw = raw.split(":")[0]`. -/
def cdStep4 (raw : List Char) : List Char :=
  if ':' ∈ cdStep3 raw then (cdStep3 raw).takeWhile (fun c => c ≠ ':') else cdStep3 raw

/-- Embedding of `clean_domain` from `src/cli.py`:
strip a `scheme://`, cut at the first `/` and `?`, cut a `:port`,
then `.strip().lower()`. -/
def clean_domain (raw : List Char) : List Char :=
  (pyStrip (cdStep4 raw)).map Char.toLower

/-- `clean_domain` lifted to `String` (used by the aggregation loop). -/
def cleanDomainS (s : String) : String := String.mk (clean_domain s.data)

/-- Python's `str.split(sep)` for a single-character separator. -/
def splitOnChar (sep : Char) : List Char → List (List Char)
  | [] => [[]]
  | c :: rest =>
    match splitOnChar sep rest with
    | [] => [[]]
    | chunk :: more => if c = sep then [] :: chunk :: more else (c :: chunk) :: more

/-- Embedding of `get_parent_domain` from `src/cli.py`:
`parts[-2] + "." + parts[-1]` when the domain has more than two labels. -/
def get_parent_domain (domain : String) : String :=
  let parts := splitOnChar '.' domain.data
  if parts.length > 2 then
    String.mk (parts.getD (parts.length - 2) [] ++ '.' :: parts.getD (parts.length - 1) [])
  else domain

/-- Embedding of `get_connectable_hostname` from `src/cli.py`; `resolves h`
says whether `RobustResolver.get_ip h` succeeds. -/
def get_connectable_hostname (resolves : String → Bool) (domain : String) : Option String :=
  if resolves domain then some domain
  else if resolves ("www." ++ domain) then some ("www." ++ domain)
  else none

section CleanDomainLemmas

theorem leadsWith_eq {sep l : List Char} (h : leadsWith sep l = true) :
    ∃ t, l = sep ++ t := by
  induction sep generalizing l with
  | nil => exact ⟨l, rfl⟩
  | cons a as ih =>
    cases l with
    | nil => simp [leadsWith] at h
    | cons b bs =>
      simp only [leadsWith, Bool.and_eq_true, decide_eq_true_eq] at h
      obtain ⟨rfl, h2⟩ := h
      obtain ⟨t, rfl⟩ := ih h2
      exact ⟨t, rfl⟩

theorem splitFirst_eq {sep l pre post : List Char}
    (h : splitFirst sep l = some (pre, post)) : l = pre ++ sep ++ post := by
  induction l generalizing pre post with
  | nil => simp [splitFirst] at h
  | cons c rest ih =>
    rw [splitFirst] at h
    by_cases hl : leadsWith sep (c :: rest) = true
    · rw [if_pos hl] at h
      obtain ⟨t, ht⟩ := leadsWith_eq hl
      rw [ht] at h ⊢
      rw [List.drop_left] at h
      simp only [Option.some.injEq, Prod.mk.injEq] at h
      obtain ⟨rfl, rfl⟩ := h
      simp
    · rw [if_neg hl] at h
      cases hs : splitFirst sep rest with
      | none => rw [hs] at h; exact absurd h (by simp)
      | some pp =>
        obtain ⟨pre', post'⟩ := pp
        rw [hs] at h
        simp only [Option.some.injEq, Prod.mk.injEq] at h
        obtain ⟨rfl, rfl⟩ := h
        have := ih hs
        simp [this]

theorem mem_of_splitFirst_isSome {sep l : List Char} {a : Char} (ha : a ∈ sep)
    (h : (splitFirst sep l).isSome = true) : a ∈ l := by
  cases hs : splitFirst sep l with
  | none => rw [hs] at h; simp at h
  | some pp =>
    obtain ⟨pre, post⟩ := pp
    have := splitFirst_eq hs
    subst this
    simp [ha]

theorem takeWhile_eq_self_of_all {p : Char → Bool} {l : List Char}
    (h : ∀ a ∈ l, p a = true) : l.takeWhile p = l := by
  induction l with
  | nil => rfl
  | cons a t ih =>
    have h1 := h a (List.mem_cons_self a t)
    have h2 : List.takeWhile p t = t := ih fun b hb => h b (List.mem_cons_of_mem a hb)
    simp [List.takeWhile_cons, h1, h2]

theorem mem_takeWhile {p : Char → Bool} {l : List Char} {a : Char}
    (h : a ∈ l.takeWhile p) : a ∈ l ∧ p a = true := by
  induction l with
  | nil => simp [List.takeWhile] at h
  | cons b t ih =>
    rw [List.takeWhile_cons] at h
    by_cases hb : p b = true
    · rw [if_pos hb] at h
      rcases List.mem_cons.mp h with rfl | h2
      · exact ⟨List.mem_cons_self a t, hb⟩
      · obtain ⟨h3, h4⟩ := ih h2
        exact ⟨List.mem_cons_of_mem b h3, h4⟩
    · rw [if_neg hb] at h
      simp at h

theorem dropWhile_idem {p : Char → Bool} {l : List Char} :
    (l.dropWhile p).dropWhile p = l.dropWhile p := by
  induction l with
  | nil => rfl
  | cons a t ih =>
    rw [List.dropWhile_cons]
    by_cases ha : p a = true
    · rw [if_pos ha]; exact ih
    · rw [if_neg ha, List.dropWhile_cons, if_neg ha]

theorem dropWhile_eq_self_of_prefix {p : Char → Bool} {u v : List Char}
    (hu : u.dropWhile p = u) (hv : v <+: u) : v.dropWhile p = v := by
  cases v with
  | nil => rfl
  | cons a t =>
    obtain ⟨w, hw⟩ := hv
    have hu' : u = a :: (t ++ w) := by rw [← hw]; rfl
    have hpa : p a = false := by
      by_contra hcon
      have hpa' : p a = true := by
        cases hpab : p a
        · exact absurd hpab hcon
        · rfl
      rw [hu', List.dropWhile_cons, if_pos hpa'] at hu
      have hlen := congrArg List.length hu
      rw [List.length_cons] at hlen
      have hle : (List.dropWhile p (t ++ w)).length ≤ (t ++ w).length :=
        (List.dropWhile_suffix p).sublist.length_le
      omega
    rw [List.dropWhile_cons, if_neg (by simp [hpa])]

theorem mem_pyStrip {l : List Char} {a : Char} (h : a ∈ pyStrip l) : a ∈ l := by
  unfold pyStrip at h
  rw [List.mem_reverse] at h
  have h2 := (List.dropWhile_suffix Char.isWhitespace).sublist.mem h
  rw [List.mem_reverse] at h2
  exact (List.dropWhile_suffix Char.isWhitespace).sublist.mem h2

theorem pyStrip_idem (l : List Char) : pyStrip (pyStrip l) = pyStrip l := by
  unfold pyStrip
  set u := l.dropWhile Char.isWhitespace with hu
  set w := u.reverse.dropWhile Char.isWhitespace with hw
  have hdu : u.dropWhile Char.isWhitespace = u := dropWhile_idem
  have hwsfx : w <:+ u.reverse := List.dropWhile_suffix _
  have hpre : w.reverse <+: u := by
    have h2 : w.reverse <+: u.reverse.reverse := List.reverse_prefix.mpr hwsfx
    rwa [List.reverse_reverse] at h2
  have h1 : w.reverse.dropWhile Char.isWhitespace = w.reverse :=
    dropWhile_eq_self_of_prefix hdu hpre
  rw [h1, List.reverse_reverse]
  have h2 : w.dropWhile Char.isWhitespace = w := by
    rw [hw]; exact dropWhile_idem
  rw [h2]

theorem char_toNat_ofNat {n : Nat} (h : n.isValidChar) : (Char.ofNat n).toNat = n := by
  rw [Char.ofNat, dif_pos h]; rfl

theorem char_eq_iff_toNat {a b : Char} : a = b ↔ a.toNat = b.toNat :=
  ⟨fun h => congrArg Char.toNat h,
   fun h => Char.eq_of_val_eq (UInt32.toNat.inj h)⟩

theorem toLower_def (c : Char) :
    Char.toLower c =
      if c.toNat ≥ 65 ∧ c.toNat ≤ 90 then Char.ofNat (c.toNat + 32) else c := rfl

theorem toLower_cases (c : Char) :
    Char.toLower c = c ∨
      (97 ≤ (Char.toLower c).toNat ∧ (Char.toLower c).toNat ≤ 122) := by
  rw [toLower_def]
  by_cases h : c.toNat ≥ 65 ∧ c.toNat ≤ 90
  · rw [if_pos h]
    right
    rw [char_toNat_ofNat (by left; omega)]
    omega
  · rw [if_neg h]; left; rfl

theorem toLower_toLower (c : Char) : Char.toLower (Char.toLower c) = Char.toLower c := by
  rcases toLower_cases c with h | h
  · rw [h, h]
  · rw [toLower_def (Char.toLower c), if_neg (by omega)]

theorem isWhitespace_iff (c : Char) :
    c.isWhitespace = true ↔
      (c.toNat = 32 ∨ c.toNat = 9 ∨ c.toNat = 13 ∨ c.toNat = 10) := by
  have hsp : (' ' : Char).toNat = 32 := rfl
  have hta : ('\t' : Char).toNat = 9 := rfl
  have hcr : ('\r' : Char).toNat = 13 := rfl
  have hnl : ('\n' : Char).toNat = 10 := rfl
  rw [Char.isWhitespace]
  simp only [Bool.or_eq_true, decide_eq_true_eq, char_eq_iff_toNat, hsp, hta, hcr, hnl]
  tauto

theorem isWhitespace_toLower (c : Char) :
    (Char.toLower c).isWhitespace = c.isWhitespace := by
  rcases toLower_cases c with h | h
  · rw [h]
  · have hlow : (Char.toLower c).isWhitespace = false := by
      cases hb : (Char.toLower c).isWhitespace
      · rfl
      · rcases (isWhitespace_iff _).mp hb with h2 | h2 | h2 | h2 <;> omega
    have hc : c.isWhitespace = false := by
      cases hb : c.isWhitespace
      · rfl
      · exfalso
        rcases (isWhitespace_iff _).mp hb with h2 | h2 | h2 | h2 <;>
        · have hcc : Char.toLower c = c := by rw [toLower_def, if_neg (by omega)]
          rw [hcc] at h
          omega
    rw [hlow, hc]

theorem pyStrip_map_toLower (l : List Char) :
    pyStrip (l.map Char.toLower) = (pyStrip l).map Char.toLower := by
  unfold pyStrip
  have hfun : (Char.isWhitespace ∘ Char.toLower) = Char.isWhitespace := by
    funext c; exact isWhitespace_toLower c
  rw [List.dropWhile_map, hfun, ← List.map_reverse, List.dropWhile_map, hfun,
    ← List.map_reverse]

theorem mem_cdStep4 {raw : List Char} {b : Char} (h : b ∈ cdStep4 raw) :
    b ≠ ':' ∧ b ≠ '/' ∧ b ≠ '?' := by
  have h3 : b ∈ cdStep3 raw ∧ b ≠ ':' := by
    rw [cdStep4] at h
    by_cases hc : ':' ∈ cdStep3 raw
    · rw [if_pos hc] at h
      obtain ⟨h1, h2⟩ := mem_takeWhile h
      simp only [decide_eq_true_eq] at h2
      exact ⟨h1, h2⟩
    · rw [if_neg hc] at h
      exact ⟨h, fun hb => hc (hb ▸ h)⟩
  obtain ⟨h3, hcolon⟩ := h3
  rw [cdStep3] at h3
  obtain ⟨h2, hq⟩ := mem_takeWhile h3
  simp only [decide_eq_true_eq] at hq
  rw [cdStep2] at h2
  obtain ⟨_, hs⟩ := mem_takeWhile h2
  simp only [decide_eq_true_eq] at hs
  exact ⟨hcolon, hs, hq⟩

theorem mem_clean_domain {raw : List Char} {a : Char} (h : a ∈ clean_domain raw) :
    a ≠ ':' ∧ a ≠ '/' ∧ a ≠ '?' := by
  rw [clean_domain] at h
  obtain ⟨b, hb, rfl⟩ := List.mem_map.mp h
  have hb4 := mem_cdStep4 (mem_pyStrip hb)
  rcases toLower_cases b with hcase | hcase
  · rw [hcase]; exact hb4
  · have hcolon : (':' : Char).toNat = 58 := rfl
    have hslash : ('/' : Char).toNat = 47 := rfl
    have hq : ('?' : Char).toNat = 63 := rfl
    refine ⟨?_, ?_, ?_⟩ <;>
    · intro he
      rw [char_eq_iff_toNat] at he
      omega

/-- C9: the domain-cleaning function is idempotent. -/
theorem clean_domain_idempotent (raw : List Char) :
    clean_domain (clean_domain raw) = clean_domain raw := by
  have hmem := fun a (h : a ∈ clean_domain raw) => mem_clean_domain h
  have hnocolon : ¬ (':' ∈ clean_domain raw) := fun h => (hmem _ h).1 rfl
  have hs1 : cdStep1 (clean_domain raw) = clean_domain raw := by
    rw [cdStep1, if_neg]
    intro hsome
    exact hnocolon (mem_of_splitFirst_isSome (by simp [schemeSep]) hsome)
  have hs2 : cdStep2 (clean_domain raw) = clean_domain raw := by
    rw [cdStep2, hs1]
    exact takeWhile_eq_self_of_all fun a ha => by
      simp only [decide_eq_true_eq]; exact (hmem a ha).2.1
  have hs3 : cdStep3 (clean_domain raw) = clean_domain raw := by
    rw [cdStep3, hs2]
    exact takeWhile_eq_self_of_all fun a ha => by
      simp only [decide_eq_true_eq]; exact (hmem a ha).2.2
  have hs4 : cdStep4 (clean_domain raw) = clean_domain raw := by
    rw [cdStep4, hs3, if_neg hnocolon]
  have hdef : clean_domain raw = (pyStrip (cdStep4 raw)).map Char.toLower := rfl
  have hcomp : Char.toLower ∘ Char.toLower = Char.toLower := funext toLower_toLower
  show (pyStrip (cdStep4 (clean_domain raw))).map Char.toLower = clean_domain raw
  rw [hs4, hdef, pyStrip_map_toLower, pyStrip_idem, List.map_map, hcomp]

end CleanDomainLemmas

/-! ### Result aggregator (`main` in `src/cli.py`, per-domain loop) -/

/-- `config["monitors"][...]["enabled"]` flags. -/
structure MonitorsEnabled where
  domain : Bool
  ssl : Bool
  dns : Bool
  security : Bool
  blacklist : Bool
deriving DecidableEq, Repr

/-- The five check adapters.  Each is a function from the query target to an
`Except`: `Except.error` models an exception raised by the adapter call,
`Except.ok` a returned result dict. -/
structure Monitors where
  checkDomain : String → Except String CheckResult
  checkSsl : String → Except String CheckResult
  checkDns : String → Except String CheckResult
  checkSecurity : String → Except String CheckResult
  checkBlacklist : String → Except String CheckResult

/-- Relabeling applied to domain/DNS monitor results:
`res["domain"] = domain`, then a `"(Parent: t) "` message marker when the
query target differs from the user-facing domain. -/
def relabelParent (domain target : String) (res : CheckResult) : CheckResult :=
  let res := { res with domain := domain }
  if target ≠ domain then
    { res with message := "(Parent: " ++ target ++ ") " ++ res.message }
  else res

/-- Relabeling applied to SSL/security monitor results: a `"(Checked h) "`
message marker when the connectable host differs, then `res["domain"] = domain`. -/
def relabelChecked (domain host : String) (res : CheckResult) : CheckResult :=
  let res :=
    if host ≠ domain then
      { res with message := "(Checked " ++ host ++ ") " ++ res.message }
    else res
  { res with domain := domain }

/-- The synthetic result appended when no connectable hostname exists. -/
def dnsFailResult (domain monitor : String) : CheckResult :=
  { domain := domain, monitor := monitor, status := .critical,
    message := "DNS Resolution Failed",
    details := ["Could not resolve hostname or www subdomain"] }

/-- Embedding of the per-domain body of the scan loop in `main`
(`src/cli.py` lines 170-241).  The domain-monitor call sits in a
`try/except` that logs and appends nothing on an exception; the other four
adapter calls are unguarded, so an `Except.error` from them propagates. -/
def processDomain (cfg : MonitorsEnabled) (m : Monitors) (resolves : String → Bool)
    (rawDomain : String) : Except String (List CheckResult) :=
  let domain := cleanDomainS rawDomain
  let connectable := get_connectable_hostname resolves domain
  let parent := get_parent_domain domain
  let acc1 : List CheckResult :=
    if cfg.domain then
      match m.checkDomain parent with
      | .error _ => []
      | .ok res => [relabelParent domain parent res]
    else []
  let sslStep : Except String (List CheckResult) :=
    if cfg.ssl then
      match connectable with
      | some h =>
        match m.checkSsl h with
        | .error e => .error e
        | .ok res => .ok (acc1 ++ [relabelChecked domain h res])
      | none => .ok (acc1 ++ [dnsFailResult domain "ssl"])
    else .ok acc1
  match sslStep with
  | .error e => .error e
  | .ok acc2 =>
    let dnsStep : Except String (List CheckResult) :=
      if cfg.dns then
        match m.checkDns parent with
        | .error e => .error e
        | .ok res => .ok (acc2 ++ [relabelParent domain parent res])
      else .ok acc2
    match dnsStep with
    | .error e => .error e
    | .ok acc3 =>
      let secStep : Except String (List CheckResult) :=
        if cfg.security then
          match connectable with
          | some h =>
            match m.checkSecurity h with
            | .error e => .error e
            | .ok res => .ok (acc3 ++ [relabelChecked domain h res])
          | none => .ok (acc3 ++ [dnsFailResult domain "security"])
        else .ok acc3
      match secStep with
      | .error e => .error e
      | .ok acc4 =>
        if cfg.blacklist then
          match m.checkBlacklist domain with
          | .error e => .error e
          | .ok res => .ok (acc4 ++ [{ res with domain := domain }])
        else .ok acc4

/-- The scan cycle: `for raw_domain in domains`, appending each domain's
results; an uncaught adapter exception aborts the whole loop. -/
def runCycle (cfg : MonitorsEnabled) (m : Monitors) (resolves : String → Bool) :
    List String → Except String (List CheckResult)
  | [] => .ok []
  | raw :: rest =>
    match processDomain cfg m resolves raw with
    | .error e => .error e
    | .ok l =>
      match runCycle cfg m resolves rest with
      | .error e => .error e
      | .ok ls => .ok (l ++ ls)

/-- Number of enabled monitors. -/
def enabledCount (cfg : MonitorsEnabled) : Nat :=
  (if cfg.domain then 1 else 0) + (if cfg.ssl then 1 else 0) +
  (if cfg.dns then 1 else 0) + (if cfg.security then 1 else 0) +
  (if cfg.blacklist then 1 else 0)

/-- Number of enabled monitors other than the domain monitor. -/
def enabledCountNonDomain (cfg : MonitorsEnabled) : Nat :=
  (if cfg.ssl then 1 else 0) + (if cfg.dns then 1 else 0) +
  (if cfg.security then 1 else 0) + (if cfg.blacklist then 1 else 0)

/-- A monitor set whose five adapters never raise. -/
def totalMonitors (f1 f2 f3 f4 f5 : String → CheckResult) : Monitors :=
  { checkDomain := fun t => .ok (f1 t), checkSsl := fun t => .ok (f2 t),
    checkDns := fun t => .ok (f3 t), checkSecurity := fun t => .ok (f4 t),
    checkBlacklist := fun t => .ok (f5 t) }

/-- A monitor set whose domain adapter always raises and whose other four
adapters never raise. -/
def domainFaultMonitors (e : String) (f2 f3 f4 f5 : String → CheckResult) : Monitors :=
  { checkDomain := fun _ => .error e, checkSsl := fun t => .ok (f2 t),
    checkDns := fun t => .ok (f3 t), checkSecurity := fun t => .ok (f4 t),
    checkBlacklist := fun t => .ok (f5 t) }

/-! ### Resilient resolver (`RobustResolver` in `src/utils/dns_helpers.py`) -/

/-- Failure kinds of the pool attempt, mirroring the `isinstance` test in
`RobustResolver.resolve`: `dns.resolver.NXDOMAIN` and `dns.resolver.NoAnswer`
are authoritative negatives; everything else is inconclusive. -/
inductive PoolError where
  | nxdomain
  | noAnswer
  | inconclusive (msg : String)
deriving DecidableEq, Repr

/-- Result of a call to `RobustResolver.resolve` together with the number of
times the DNS-over-HTTPS fallback was invoked. -/
structure ResolveOutcome where
  result : Except PoolError (List String)
  dohCalls : Nat
deriving Repr

namespace RobustResolver

/-- Embedding of `RobustResolver.resolve` (`src/utils/dns_helpers.py` lines
22-60).  The pool attempt over the shuffled nameserver list and the
DNS-over-HTTPS attempt are network effects, given here as parameters;
`dohCalls` counts invocations of `_resolve_doh`.  An `NXDOMAIN`/`NoAnswer`
from the pool is re-raised without fallback; any other pool failure falls
through to exactly one DoH attempt, whose own failure is re-raised (an
inconclusive error). -/
def resolve (poolAttempt : Except PoolError (List String))
    (dohAttempt : Except String (List String)) : ResolveOutcome :=
  match poolAttempt with
  | .ok answers => ⟨.ok answers, 0⟩
  | .error e =>
    match e with
    | .nxdomain => ⟨.error .nxdomain, 0⟩
    | .noAnswer => ⟨.error .noAnswer, 0⟩
    | .inconclusive _ =>
      match dohAttempt with
      | .ok answers => ⟨.ok answers, 1⟩
      | .error msg => ⟨.error (.inconclusive msg), 1⟩

end RobustResolver

/-! ### Blacklist monitor (`src/monitors/blacklist_monitor.py`) -/

/-- Failure kinds of one RBL query, mirroring the `except` arms of the RBL
loop in `BlacklistMonitor.check_blacklist`. -/
inductive RblError where
  | nxdomain
  | noAnswer
  | otherErr (msg : String)
deriving DecidableEq, Repr

/-- The static RBL list from `BlacklistMonitor.__init__`. -/
def defaultRbls : List String :=
  ["zen.spamhaus.org", "bl.spamcop.net", "cbl.abuseat.org", "dnsbl.sorbs.net",
   "b.barracudacentral.org", "dnsbl-1.uceprotect.net"]

/-- Join character-list chunks with `'.'` (Python `".".join`). -/
def joinWithDot : List (List Char) → List Char
  | [] => []
  | [p] => p
  | p :: rest => p ++ '.' :: joinWithDot rest

/-- Embedding of `".".join(reversed(ip.split(".")))`. -/
def reverseIp (ip : String) : String :=
  String.mk (joinWithDot (splitOnChar '.' ip.data).reverse)

/-- Python's `str.startswith` (via character lists, so it evaluates in the
kernel). -/
def strStartsWith (s pre : String) : Bool := leadsWith pre.data s.data

/-- The per-answer filtering of one RBL's A-record answers
(`check_blacklist` lines 47-63): answers starting with `127.255.255.` and the
policy-listing answers `127.0.0.10` / `127.0.0.11` are skipped; any other
answer adds the RBL to `listed_in` (deduplicated). -/
def processRblAnswers (rbl : String) (answers : List String)
    (listedIn : List String) : List String :=
  answers.foldl
    (fun listed resultIp =>
      if strStartsWith resultIp "127.255.255." then listed
      else if resultIp = "127.0.0.10" ∨ resultIp = "127.0.0.11" then listed
      else if rbl ∈ listed then listed else listed ++ [rbl])
    listedIn

/-- Embedding of the RBL loop of `check_blacklist` (lines 42-73): each RBL is
queried at `reversed_ip.rbl`; `NXDOMAIN`/`NoAnswer` mean "not listed"; other
errors are collected; `Except.ok` answers go through `processRblAnswers`.
Returns `(listed_in, errors)`. -/
def check_blacklist_lists (rbls : List String)
    (query : String → Except RblError (List String)) (ip : String) :
    List String × List String :=
  rbls.foldl
    (fun acc rbl =>
      match query (reverseIp ip ++ "." ++ rbl) with
      | .ok answers => (processRblAnswers rbl answers acc.1, acc.2)
      | .error .nxdomain => acc
      | .error .noAnswer => acc
      | .error (.otherErr msg) => (acc.1, acc.2 ++ [rbl ++ ": " ++ msg]))
    ([], [])

/-- The final status of `check_blacklist`: `critical` exactly when
`listed_in` is non-empty. -/
def check_blacklist_status (rbls : List String)
    (query : String → Except RblError (List String)) (ip : String) : Status :=
  if (check_blacklist_lists rbls query ip).1 = [] then .ok else .critical

/-- The claim's description of a reserved policy-listing / query-blocked
answer address (used in theorem hypotheses). -/
def reservedRblCode (ip : String) : Bool :=
  strStartsWith ip "127.255.255." || ip = "127.0.0.10" || ip = "127.0.0.11"

/-! ### Alert state machine (`NotificationManager` in `src/notifications/manager.py`) -/

/-- A persisted Issue Record (`self.state[issue_id]`); timestamps are seconds. -/
structure IssueData where
  first_seen : Int
  last_sent : Int
  count : Nat
  monitor : String
  domain : String
deriving DecidableEq, Repr

/-- The persisted issue state: an insertion-ordered key-value mapping
(a Python dict). -/
abbrev IssueStore := List (String × IssueData)

/-- Dict lookup (`issue_id in self.state` / `self.state[issue_id]`). -/
def storeFind : IssueStore → String → Option IssueData
  | [], _ => none
  | (k, v) :: rest, key => if k = key then some v else storeFind rest key

/-- Dict write: update the entry in place if present, else append. -/
def storeSet : IssueStore → String → IssueData → IssueStore
  | [], key, val => [(key, val)]
  | (k, v) :: rest, key, val =>
    if k = key then (k, val) :: rest else (k, v) :: storeSet rest key val

/-- An entry of `alerts_to_send`: the result dict with the injected
`alert_count`. -/
structure Alert where
  res : CheckResult
  alert_count : Nat
deriving DecidableEq, Repr

/-- `current_issues` key insertion (`current_issues[issue_id] = res`). -/
def addCurrentId (ids : List String) (id : String) : List String :=
  if id ∈ ids then ids else ids ++ [id]

/-- Accumulator of the result loop in `process_and_send`. -/
structure ProcState where
  store : IssueStore
  currentIds : List String
  alerts : List Alert
deriving Repr

/-- One iteration of `for res in results` in `process_and_send` (lines
45-74): non-ok results are recorded in `current_issues`; a known issue is
resent when more than 24h (86400 s) have passed since `last_sent`, else
snoozed; an unknown issue becomes a fresh record with `count = 1`. -/
def processResult (now : Int) (st : ProcState) (res : CheckResult) : ProcState :=
  if isAlertStatus res.status then
    let id := issueId res
    let ids := addCurrentId st.currentIds id
    match storeFind st.store id with
    | some data =>
      if now - data.last_sent > 86400 then
        let data2 := { data with count := data.count + 1, last_sent := now }
        { store := storeSet st.store id data2, currentIds := ids,
          alerts := st.alerts ++ [{ res := res, alert_count := data2.count }] }
      else
        { st with currentIds := ids }
    | none =>
      let data : IssueData :=
        { first_seen := now, last_sent := now, count := 1,
          monitor := res.monitor, domain := res.domain }
      { store := storeSet st.store id data, currentIds := ids,
        alerts := st.alerts ++ [{ res := res, alert_count := 1 }] }
  else st

/-- `defaultdict(list)` grouping step: append the alert to its domain's
group, creating the group at the end on first sight. -/
def addToGroup : List (String × List Alert) → String → Alert → List (String × List Alert)
  | [], d, a => [(d, [a])]
  | (k, l) :: rest, d, a =>
    if k = d then (k, l ++ [a]) :: rest else (k, l) :: addToGroup rest d a

/-- `domain_groups` construction (lines 95-97), preserving both key
insertion order and per-group alert order. -/
def groupByDomain (alerts : List Alert) : List (String × List Alert) :=
  alerts.foldl (fun groups a => addToGroup groups a.res.domain a) []

/-- Embedding of `NotificationManager.process_and_send` (lines 37-101):
runs the result loop, deletes records whose ids are not current, saves the
state (the returned store), and — only when there is something to send —
groups the alerts by domain.  Returns (saved state, digests sent). -/
def process_and_send (now : Int) (state : IssueStore) (results : List CheckResult) :
    IssueStore × List (String × List Alert) :=
  let st := results.foldl (processResult now) ⟨state, [], []⟩
  let newStore := st.store.filter (fun kv => kv.1 ∈ st.currentIds)
  if st.alerts = [] then (newStore, [])
  else (newStore, groupByDomain st.alerts)

/-- The repeat-count marker of a digest entry (`_send_aggregated_alert`
line 110): `"(Repeated Nx)"` when `alert_count > 1`, else `"(New)"`. -/
def repeatLabel (a : Alert) : String :=
  if a.alert_count > 1 then "(Repeated " ++ toString a.alert_count ++ "x)" else "(New)"

/-- The severity icon of a digest entry (line 109). -/
def statusIcon (a : Alert) : String :=
  if a.res.status = .critical then "[RED]" else "[WARN]"

/-- The lines contributed by one digest entry (lines 109-119): the entry
line followed by at most three detail lines. -/
def entryLines (a : Alert) : List String :=
  (statusIcon a ++ " **" ++ a.res.monitor.toUpper ++ "**: " ++ a.res.message
      ++ " " ++ repeatLabel a)
    :: (a.res.details.take 3).map (fun d => "   - " ++ d)

/-- Embedding of `_send_aggregated_alert` (lines 103-122): the header line
followed by each alert's lines, in the order the alerts were collected. -/
def digestLines (domain : String) (alerts : List Alert) : List String :=
  ("Found " ++ toString alerts.length ++ " issues for **" ++ domain ++ "**:")
    :: alerts.foldl (fun lines a => lines ++ entryLines a) []

/-- Spec-side necessary condition of "sorted by severity (critical first)":
no critical entry appears after a non-critical one. -/
def noCriticalAfterNonCritical : List Alert → Bool
  | [] => true
  | a :: rest =>
    (if a.res.status ≠ .critical then rest.all (fun b => b.res.status ≠ .critical)
     else true) && noCriticalAfterNonCritical rest

/-- The ids of the alert-worthy results of a cycle, in processing order
(the key set of `current_issues`). -/
def nonOkIds (results : List CheckResult) : List String :=
  (results.filter (fun r => isAlertStatus r.status)).map issueId

/-- The alerts collected by one run of the result loop. -/
def cycleAlerts (now : Int) (state : IssueStore) (results : List CheckResult) : List Alert :=
  (results.foldl (processResult now) ⟨state, [], []⟩).alerts

/-- Record one alert's domain in an insertion-ordered list of distinct domains. -/
def addDom (ds : List String) (a : Alert) : List String :=
  if a.res.domain ∈ ds then ds else ds ++ [a.res.domain]

/-- The insertion-ordered list of distinct domains of a list of alerts. -/
def domOrder (alerts : List Alert) : List String :=
  alerts.foldl addDom []


section ManagerLemmas

theorem processResult_not_alert {now : Int} {st : ProcState} {res : CheckResult}
    (h : isAlertStatus res.status = false) : processResult now st res = st := by
  simp [processResult, h]

theorem processResult_new {now : Int} {st : ProcState} {res : CheckResult}
    (h : isAlertStatus res.status = true)
    (hf : storeFind st.store (issueId res) = none) :
    processResult now st res =
      { store := storeSet st.store (issueId res)
          { first_seen := now, last_sent := now, count := 1,
            monitor := res.monitor, domain := res.domain },
        currentIds := addCurrentId st.currentIds (issueId res),
        alerts := st.alerts ++ [{ res := res, alert_count := 1 }] } := by
  simp [processResult, h, hf]

theorem processResult_resend {now : Int} {st : ProcState} {res : CheckResult}
    {data : IssueData} (h : isAlertStatus res.status = true)
    (hf : storeFind st.store (issueId res) = some data)
    (ht : now - data.last_sent > 86400) :
    processResult now st res =
      { store := storeSet st.store (issueId res)
          { data with count := data.count + 1, last_sent := now },
        currentIds := addCurrentId st.currentIds (issueId res),
        alerts := st.alerts ++ [{ res := res, alert_count := data.count + 1 }] } := by
  simp [processResult, h, hf, ht]

theorem processResult_snooze {now : Int} {st : ProcState} {res : CheckResult}
    {data : IssueData} (h : isAlertStatus res.status = true)
    (hf : storeFind st.store (issueId res) = some data)
    (ht : ¬(now - data.last_sent > 86400)) :
    processResult now st res = { st with currentIds := addCurrentId st.currentIds (issueId res) } := by
  simp [processResult, h, hf, ht]

theorem storeFind_storeSet (s : IssueStore) (k k' : String) (v : IssueData) :
    storeFind (storeSet s k v) k' = if k' = k then some v else storeFind s k' := by
  induction s with
  | nil =>
    simp only [storeSet, storeFind]
    by_cases h : k = k'
    · simp only [if_pos h, if_pos h.symm]
    · simp only [if_neg h, if_neg (fun he : k' = k => h he.symm)]
  | cons hd tl ih =>
    obtain ⟨k0, v0⟩ := hd
    by_cases h0 : k0 = k
    · subst h0
      simp only [storeSet, if_pos rfl, storeFind]
      by_cases h : k0 = k'
      · simp only [if_pos h, if_pos h.symm]
      · simp only [if_neg h, if_neg (fun he : k' = k0 => h he.symm)]
    · simp only [storeSet, if_neg h0, storeFind]
      by_cases h : k0 = k'
      · have hne : ¬(k' = k) := fun he => h0 ((h.trans he))
        simp only [if_pos h, if_neg hne]
      · simp only [if_neg h]
        rw [ih]

theorem storeFind_filter (s : IssueStore) (ids : List String) (k : String) :
    storeFind (s.filter (fun kv => kv.1 ∈ ids)) k =
      if k ∈ ids then storeFind s k else none := by
  induction s with
  | nil => simp [storeFind]
  | cons hd tl ih =>
    obtain ⟨k0, v0⟩ := hd
    by_cases h0 : k0 ∈ ids
    · rw [List.filter_cons_of_pos (by simpa using h0)]
      by_cases h : k0 = k
      · subst h
        simp [storeFind, h0]
      · simp only [storeFind, if_neg h]
        rw [ih]
    · rw [List.filter_cons_of_neg (by simpa using h0)]
      rw [ih]
      by_cases hk : k ∈ ids
      · have h : ¬(k0 = k) := fun he => h0 (he ▸ hk)
        simp only [if_pos hk, storeFind, if_neg h]
      · simp only [if_neg hk]

theorem mem_addCurrentId {ids : List String} {id k : String} :
    k ∈ addCurrentId ids id ↔ k ∈ ids ∨ k = id := by
  rw [addCurrentId]
  by_cases h : id ∈ ids
  · rw [if_pos h]
    constructor
    · exact fun hk => Or.inl hk
    · rintro (hk | rfl)
      · exact hk
      · exact h
  · rw [if_neg h]
    simp

/-- Invariant of the result loop: every current id has a record whose
`last_sent` is within the resend window. -/
def goodState (now : Int) (st : ProcState) : Prop :=
  ∀ k ∈ st.currentIds, ∃ v, storeFind st.store k = some v ∧ now - v.last_sent ≤ 86400

theorem goodState_processResult {now : Int} {st : ProcState} {res : CheckResult}
    (h : goodState now st) : goodState now (processResult now st res) := by
  cases ha : isAlertStatus res.status with
  | false => rw [processResult_not_alert ha]; exact h
  | true =>
    cases hf : storeFind st.store (issueId res) with
    | some data =>
      by_cases ht : now - data.last_sent > 86400
      · rw [processResult_resend ha hf ht]
        intro k hk
        simp only at hk ⊢
        rw [storeFind_storeSet]
        by_cases hk2 : k = issueId res
        · rw [if_pos hk2]
          refine ⟨_, rfl, ?_⟩
          show now - now ≤ 86400
          omega
        · rw [if_neg hk2]
          rcases mem_addCurrentId.mp hk with hk3 | hk3
          · exact h k hk3
          · exact absurd hk3 hk2
      · rw [processResult_snooze ha hf ht]
        intro k hk
        simp only at hk ⊢
        rcases mem_addCurrentId.mp hk with hk3 | hk3
        · exact h k hk3
        · subst hk3
          exact ⟨data, hf, by omega⟩
    | none =>
      rw [processResult_new ha hf]
      intro k hk
      simp only at hk ⊢
      rw [storeFind_storeSet]
      by_cases hk2 : k = issueId res
      · rw [if_pos hk2]
        exact ⟨_, rfl, by simp⟩
      · rw [if_neg hk2]
        rcases mem_addCurrentId.mp hk with hk3 | hk3
        · exact h k hk3
        · exact absurd hk3 hk2

theorem goodState_foldl (now : Int) (results : List CheckResult) (st : ProcState)
    (h : goodState now st) : goodState now (results.foldl (processResult now) st) := by
  induction results generalizing st with
  | nil => exact h
  | cons r rest ih => exact ih _ (goodState_processResult h)

theorem currentIds_processResult {now : Int} {st : ProcState} {res : CheckResult} {k : String} :
    k ∈ (processResult now st res).currentIds ↔
      k ∈ st.currentIds ∨ (isAlertStatus res.status = true ∧ issueId res = k) := by
  cases ha : isAlertStatus res.status with
  | false =>
    rw [processResult_not_alert ha]
    constructor
    · exact fun h1 => Or.inl h1
    · rintro (h1 | ⟨hcon, _⟩)
      · exact h1
      · exact absurd hcon (by simp [ha])
  | true =>
    have key : (processResult now st res).currentIds = addCurrentId st.currentIds (issueId res) := by
      cases hf : storeFind st.store (issueId res) with
      | some data =>
        by_cases ht : now - data.last_sent > 86400
        · rw [processResult_resend ha hf ht]
        · rw [processResult_snooze ha hf ht]
      | none => rw [processResult_new ha hf]
    rw [key, mem_addCurrentId]
    constructor
    · rintro (h1 | rfl)
      · exact Or.inl h1
      · exact Or.inr ⟨by trivial, rfl⟩
    · rintro (h1 | ⟨_, rfl⟩)
      · exact Or.inl h1
      · exact Or.inr rfl

theorem currentIds_foldl {now : Int} (results : List CheckResult) (st : ProcState) {k : String} :
    k ∈ (results.foldl (processResult now) st).currentIds ↔
      k ∈ st.currentIds ∨ ∃ r ∈ results, isAlertStatus r.status = true ∧ issueId r = k := by
  induction results generalizing st with
  | nil => simp
  | cons r rest ih =>
    rw [List.foldl_cons, ih, currentIds_processResult]
    constructor
    · rintro ((h1 | h1) | ⟨r', hr', h2⟩)
      · exact Or.inl h1
      · exact Or.inr ⟨r, List.mem_cons_self r rest, h1⟩
      · exact Or.inr ⟨r', List.mem_cons_of_mem r hr', h2⟩
    · rintro (h1 | ⟨r', hr', h2⟩)
      · exact Or.inl (Or.inl h1)
      · rcases List.mem_cons.mp hr' with rfl | h3
        · exact Or.inl (Or.inr h2)
        · exact Or.inr ⟨r', h3, h2⟩

theorem storeKeys_processResult {now : Int} {st : ProcState} {res : CheckResult} {k : String} :
    (∃ v, storeFind (processResult now st res).store k = some v) ↔
      (∃ v, storeFind st.store k = some v) ∨
        (isAlertStatus res.status = true ∧ issueId res = k) := by
  cases ha : isAlertStatus res.status with
  | false =>
    rw [processResult_not_alert ha]
    constructor
    · exact fun h1 => Or.inl h1
    · rintro (h1 | ⟨hcon, _⟩)
      · exact h1
      · exact absurd hcon (by simp [ha])
  | true =>
    cases hf : storeFind st.store (issueId res) with
    | some data =>
      by_cases ht : now - data.last_sent > 86400
      · rw [processResult_resend ha hf ht]
        simp only
        rw [storeFind_storeSet]
        by_cases hk : k = issueId res
        · subst hk
          simp
        · rw [if_neg hk]
          constructor
          · exact fun h1 => Or.inl h1
          · rintro (h1 | ⟨_, h2⟩)
            · exact h1
            · exact absurd h2.symm hk
      · rw [processResult_snooze ha hf ht]
        simp only
        constructor
        · exact fun h1 => Or.inl h1
        · rintro (h1 | ⟨_, h2⟩)
          · exact h1
          · exact h2 ▸ ⟨data, hf⟩
    | none =>
      rw [processResult_new ha hf]
      simp only
      rw [storeFind_storeSet]
      by_cases hk : k = issueId res
      · subst hk
        simp
      · rw [if_neg hk]
        constructor
        · exact fun h1 => Or.inl h1
        · rintro (h1 | ⟨_, h2⟩)
          · exact h1
          · exact absurd h2.symm hk

theorem storeKeys_foldl {now : Int} (results : List CheckResult) (st : ProcState) {k : String} :
    (∃ v, storeFind (results.foldl (processResult now) st).store k = some v) ↔
      (∃ v, storeFind st.store k = some v) ∨
        ∃ r ∈ results, isAlertStatus r.status = true ∧ issueId r = k := by
  induction results generalizing st with
  | nil => simp
  | cons r rest ih =>
    rw [List.foldl_cons, ih, storeKeys_processResult]
    constructor
    · rintro ((h1 | h1) | ⟨r', hr', h2⟩)
      · exact Or.inl h1
      · exact Or.inr ⟨r, List.mem_cons_self r rest, h1⟩
      · exact Or.inr ⟨r', List.mem_cons_of_mem r hr', h2⟩
    · rintro (h1 | ⟨r', hr', h2⟩)
      · exact Or.inl (Or.inl h1)
      · rcases List.mem_cons.mp hr' with rfl | h3
        · exact Or.inl (Or.inr h2)
        · exact Or.inr ⟨r', h3, h2⟩

end ManagerLemmas

section ManagerLemmas2

/-- Shorthand for the accumulator after the result loop. -/
def runState (now : Int) (s : IssueStore) (results : List CheckResult) : ProcState :=
  results.foldl (processResult now) ⟨s, [], []⟩

theorem process_and_send_fst (now : Int) (s : IssueStore) (results : List CheckResult) :
    (process_and_send now s results).1 =
      (runState now s results).store.filter
        (fun kv => kv.1 ∈ (runState now s results).currentIds) := by
  simp only [process_and_send]
  unfold runState
  split <;> rfl

theorem process_and_send_snd (now : Int) (s : IssueStore) (results : List CheckResult) :
    (process_and_send now s results).2 =
      if (runState now s results).alerts = [] then []
      else groupByDomain (runState now s results).alerts := by
  simp only [process_and_send]
  unfold runState
  split <;> rfl

theorem foldl_snoozed (now : Int) (results : List CheckResult) (st : ProcState)
    (h : ∀ r ∈ results, isAlertStatus r.status = true →
      ∃ v, storeFind st.store (issueId r) = some v ∧ ¬(now - v.last_sent > 86400)) :
    (results.foldl (processResult now) st).store = st.store ∧
      (results.foldl (processResult now) st).alerts = st.alerts := by
  induction results generalizing st with
  | nil => exact ⟨rfl, rfl⟩
  | cons r rest ih =>
    rw [List.foldl_cons]
    cases ha : isAlertStatus r.status with
    | false =>
      rw [processResult_not_alert ha]
      exact ih st (fun r' hr' h' => h r' (List.mem_cons_of_mem r hr') h')
    | true =>
      obtain ⟨v, hv, hvt⟩ := h r (List.mem_cons_self r rest) ha
      rw [processResult_snooze ha hv hvt]
      exact ih { st with currentIds := addCurrentId st.currentIds (issueId r) }
        (fun r' hr' h' => h r' (List.mem_cons_of_mem r hr') h')

theorem alerts_count_foldl {now : Int} (results : List CheckResult) (st : ProcState)
    (h : ∀ a ∈ st.alerts, 1 ≤ a.alert_count) :
    ∀ a ∈ (results.foldl (processResult now) st).alerts, 1 ≤ a.alert_count := by
  induction results generalizing st with
  | nil => exact h
  | cons r rest ih =>
    rw [List.foldl_cons]
    cases ha : isAlertStatus r.status with
    | false => rw [processResult_not_alert ha]; exact ih st h
    | true =>
      cases hf : storeFind st.store (issueId r) with
      | some data =>
        by_cases ht : now - data.last_sent > 86400
        · rw [processResult_resend ha hf ht]
          refine ih _ ?_
          intro a hamem
          rcases List.mem_append.mp hamem with hm | hm
          · exact h a hm
          · rcases List.mem_singleton.mp hm with rfl
            show 1 ≤ data.count + 1
            omega
        · rw [processResult_snooze ha hf ht]; exact ih _ h
      | none =>
        rw [processResult_new ha hf]
        refine ih _ ?_
        intro a hamem
        rcases List.mem_append.mp hamem with hm | hm
        · exact h a hm
        · rcases List.mem_singleton.mp hm with rfl
          show 1 ≤ 1
          omega

theorem storeFind_eq_none_iff {s : IssueStore} {k : String} :
    storeFind s k = none ↔ ∀ kv ∈ s, kv.1 ≠ k := by
  induction s with
  | nil => simp [storeFind]
  | cons hd tl ih =>
    obtain ⟨k0, v0⟩ := hd
    simp only [storeFind]
    by_cases h : k0 = k
    · subst h
      simp
    · simp only [if_neg h, ih]
      constructor
      · intro h2 kv hkv
        rcases List.mem_cons.mp hkv with rfl | h3
        · exact h
        · exact h2 kv h3
      · intro h2 kv hkv
        exact h2 kv (List.mem_cons_of_mem _ hkv)

theorem storeSet_of_not_found {s : IssueStore} {k : String} {v : IssueData}
    (h : storeFind s k = none) : storeSet s k v = s ++ [(k, v)] := by
  induction s with
  | nil => rfl
  | cons hd tl ih =>
    obtain ⟨k0, v0⟩ := hd
    simp only [storeFind] at h
    by_cases h0 : k0 = k
    · rw [if_pos h0] at h
      exact absurd h (by simp)
    · rw [if_neg h0] at h
      simp only [storeSet, if_neg h0, List.cons_append]
      rw [ih h]

/-- The saved store's key set is exactly the set of alert-worthy ids of the
cycle's results. -/
theorem process_and_send_keys (now : Int) (s : IssueStore) (results : List CheckResult)
    (k : String) :
    (∃ v, storeFind (process_and_send now s results).1 k = some v) ↔
      ∃ r ∈ results, isAlertStatus r.status = true ∧ issueId r = k := by
  rw [process_and_send_fst, storeFind_filter]
  by_cases hk : k ∈ (runState now s results).currentIds
  · rw [if_pos hk]
    have h1 := (currentIds_foldl results ⟨s, [], []⟩).mp hk
    constructor
    · intro _
      rcases h1 with h1 | h1
      · simp at h1
      · exact h1
    · intro _
      have hg := goodState_foldl now results ⟨s, [], []⟩
        (by intro k2 hk2; simp at hk2)
      obtain ⟨v, hv, _⟩ := hg k hk
      exact ⟨v, hv⟩
  · rw [if_neg hk]
    constructor
    · rintro ⟨v, hv⟩
      exact Option.noConfusion hv
    · intro h2
      exact absurd ((currentIds_foldl results ⟨s, [], []⟩).mpr (Or.inr h2)) hk

end ManagerLemmas2

section GroupingLemmas

theorem foldl_addDom_mem (xs : List Alert) (ds : List String) (d : String) :
    d ∈ xs.foldl addDom ds ↔ d ∈ ds ∨ ∃ a ∈ xs, a.res.domain = d := by
  induction xs generalizing ds with
  | nil => simp
  | cons a xs' ih =>
    rw [List.foldl_cons, ih]
    have hstep : d ∈ addDom ds a ↔ d ∈ ds ∨ a.res.domain = d := by
      unfold addDom
      by_cases h : a.res.domain ∈ ds
      · rw [if_pos h]
        constructor
        · exact fun h1 => Or.inl h1
        · rintro (h1 | rfl)
          · exact h1
          · exact h
      · rw [if_neg h]
        simp [eq_comm]
    rw [hstep]
    constructor
    · rintro ((h1 | h1) | ⟨a', ha', h2⟩)
      · exact Or.inl h1
      · exact Or.inr ⟨a, List.mem_cons_self a xs', h1⟩
      · exact Or.inr ⟨a', List.mem_cons_of_mem a ha', h2⟩
    · rintro (h1 | ⟨a', ha', h2⟩)
      · exact Or.inl (Or.inl h1)
      · rcases List.mem_cons.mp ha' with rfl | h3
        · exact Or.inl (Or.inr h2)
        · exact Or.inr ⟨a', h3, h2⟩

theorem nodup_append_singleton {ds : List String} {d : String}
    (h : ds.Nodup) (hd : d ∉ ds) : (ds ++ [d]).Nodup := by
  induction ds with
  | nil => simp
  | cons a ds' ih =>
    rw [List.cons_append, List.nodup_cons]
    rw [List.nodup_cons] at h
    constructor
    · intro hmem
      rcases List.mem_append.mp hmem with h1 | h1
      · exact h.1 h1
      · rcases List.mem_singleton.mp h1 with rfl
        exact hd (List.mem_cons_self a ds')
    · exact ih h.2 (fun hm => hd (List.mem_cons_of_mem a hm))

theorem foldl_addDom_nodup (xs : List Alert) (ds : List String) (h : ds.Nodup) :
    (xs.foldl addDom ds).Nodup := by
  induction xs generalizing ds with
  | nil => exact h
  | cons a xs' ih =>
    rw [List.foldl_cons]
    refine ih _ ?_
    unfold addDom
    by_cases hm : a.res.domain ∈ ds
    · rw [if_pos hm]; exact h
    · rw [if_neg hm]; exact nodup_append_singleton h hm

theorem domOrder_nodup (ys : List Alert) : (domOrder ys).Nodup :=
  foldl_addDom_nodup ys [] (List.nodup_nil)

theorem domOrder_mem (ys : List Alert) (d : String) :
    d ∈ domOrder ys ↔ ∃ a ∈ ys, a.res.domain = d := by
  rw [domOrder, foldl_addDom_mem]
  simp

theorem domOrder_append_singleton (ys : List Alert) (a : Alert) :
    domOrder (ys ++ [a]) = addDom (domOrder ys) a := by
  rw [domOrder, List.foldl_append]
  rfl

theorem addDom_cons {d0 : String} {ds' : List String} {a : Alert}
    (hne : ¬(a.res.domain = d0)) : addDom (d0 :: ds') a = d0 :: addDom ds' a := by
  unfold addDom
  by_cases h : a.res.domain ∈ ds'
  · rw [if_pos (List.mem_cons_of_mem d0 h), if_pos h]
  · rw [if_neg (fun hm => by
      rcases List.mem_cons.mp hm with h1 | h1
      · exact hne h1
      · exact h h1), if_neg h]
    rfl

theorem addToGroup_mapOf (ds : List String) (xs : List Alert) (a : Alert)
    (hnd : ds.Nodup)
    (hmiss : a.res.domain ∉ ds → xs.filter (fun b => b.res.domain = a.res.domain) = []) :
    addToGroup (ds.map fun d => (d, xs.filter (fun b => b.res.domain = d))) a.res.domain a
      = (addDom ds a).map (fun d => (d, (xs ++ [a]).filter (fun b => b.res.domain = d))) := by
  induction ds with
  | nil =>
    have hfa : ([a].filter (fun b => b.res.domain = a.res.domain)) = [a] := by simp
    simp only [List.map_nil, addToGroup, addDom]
    rw [if_neg (List.not_mem_nil _)]
    simp only [List.nil_append, List.map_cons, List.map_nil, List.filter_append,
      hmiss (List.not_mem_nil _), hfa]
  | cons d0 ds' ih =>
    rw [List.nodup_cons] at hnd
    by_cases hd : d0 = a.res.domain
    · subst hd
      simp only [List.map_cons, addToGroup, if_pos rfl]
      unfold addDom
      rw [if_pos (List.mem_cons_self a.res.domain ds')]
      simp only [List.map_cons]
      have hhead : (xs ++ [a]).filter (fun b => b.res.domain = a.res.domain)
          = xs.filter (fun b => b.res.domain = a.res.domain) ++ [a] := by
        rw [List.filter_append]
        simp
      rw [hhead]
      have htail : ds'.map (fun d => (d, (xs ++ [a]).filter (fun b => b.res.domain = d)))
          = ds'.map (fun d => (d, xs.filter (fun b => b.res.domain = d))) := by
        apply List.map_congr_left
        intro d hd'
        have hne2 : ¬(a.res.domain = d) := fun he => hnd.1 (he ▸ hd')
        have hfe : [a].filter (fun b => b.res.domain = d) = [] := by
          simp [hne2]
        rw [List.filter_append, hfe, List.append_nil]
      rw [htail]
      simp
    · have hne : ¬(d0 = a.res.domain) := hd
      simp only [List.map_cons, addToGroup, if_neg hne]
      rw [addDom_cons (fun he => hne he.symm)]
      simp only [List.map_cons]
      have hne2 : ¬(a.res.domain = d0) := fun he => hne he.symm
      have hhead : (xs ++ [a]).filter (fun b => b.res.domain = d0)
          = xs.filter (fun b => b.res.domain = d0) := by
        have hfe : [a].filter (fun b => b.res.domain = d0) = [] := by
          simp [hne2]
        rw [List.filter_append, hfe, List.append_nil]
      rw [hhead]
      have hmiss' : a.res.domain ∉ ds' → xs.filter (fun b => b.res.domain = a.res.domain) = [] := by
        intro hnm
        exact hmiss (fun hm => by
          rcases List.mem_cons.mp hm with h1 | h1
          · exact hne h1.symm
          · exact hnm h1)
      rw [ih hnd.2 hmiss']

/-- The closed form of `groupByDomain`: one group per distinct domain in
first-appearance order, each carrying that domain's alerts in list order. -/
def groupsOf (ys : List Alert) : List (String × List Alert) :=
  (domOrder ys).map (fun d => (d, ys.filter (fun a => a.res.domain = d)))

theorem foldl_addToGroup (xs seen : List Alert) :
    xs.foldl (fun groups a => addToGroup groups a.res.domain a) (groupsOf seen)
      = groupsOf (seen ++ xs) := by
  induction xs generalizing seen with
  | nil => simp
  | cons a xs' ih =>
    rw [List.foldl_cons]
    have hstep : addToGroup (groupsOf seen) a.res.domain a = groupsOf (seen ++ [a]) := by
      unfold groupsOf
      rw [domOrder_append_singleton]
      exact addToGroup_mapOf (domOrder seen) seen a (domOrder_nodup seen)
        (fun hnm => by
          rw [List.filter_eq_nil_iff]
          intro b hb hcon
          exact hnm ((domOrder_mem seen a.res.domain).mpr
            ⟨b, hb, by simpa using hcon⟩))
    rw [hstep, ih]
    rw [List.append_assoc]
    rfl

theorem groupByDomain_eq (xs : List Alert) : groupByDomain xs = groupsOf xs := by
  have h := foldl_addToGroup xs []
  simpa [groupByDomain, groupsOf, domOrder] using h

end GroupingLemmas

/-- C3: for every query, an authoritative negative (NXDOMAIN / NoAnswer) from
the resolver pool is surfaced immediately with no DNS-over-HTTPS call, while
any other pool failure triggers exactly one DoH attempt; a successful DoH
attempt yields its answers and a failed one surfaces an inconclusive error. -/
theorem resolver_fallback_policy (msg em : String) (ans : List String)
    (doh : Except String (List String)) :
    RobustResolver.resolve (.ok ans) doh = ⟨.ok ans, 0⟩ ∧
    RobustResolver.resolve (.error .nxdomain) doh = ⟨.error .nxdomain, 0⟩ ∧
    RobustResolver.resolve (.error .noAnswer) doh = ⟨.error .noAnswer, 0⟩ ∧
    RobustResolver.resolve (.error (.inconclusive msg)) (.ok ans) = ⟨.ok ans, 1⟩ ∧
    RobustResolver.resolve (.error (.inconclusive msg)) (.error em)
      = ⟨.error (.inconclusive em), 1⟩ ∧
    (RobustResolver.resolve (.error (.inconclusive msg)) doh).dohCalls = 1 := by
  refine ⟨rfl, rfl, rfl, rfl, rfl, ?_⟩
  cases doh <;> rfl

/-- C10: after every `process_and_send`, the saved store is the loop's store
restricted to the current ids — computed before the alerts-empty branch, so
it is persisted even when no alerts fired — and its key set is exactly the
set of `domain:monitor` ids reporting warning, critical or error in this
cycle's results. -/
theorem issue_state_keys_invariant (now : Int) (s : IssueStore) (results : List CheckResult) :
    (process_and_send now s results).1 =
      (runState now s results).store.filter
        (fun kv => kv.1 ∈ (runState now s results).currentIds) ∧
    ∀ k, (∃ v, storeFind (process_and_send now s results).1 k = some v) ↔
      ∃ r ∈ results, isAlertStatus r.status = true ∧ issueId r = k :=
  ⟨process_and_send_fst now s results, fun k => process_and_send_keys now s results k⟩

/-- C5: with an existing record, a non-ok pair is resent (count incremented,
`last_sent` updated, alert emitted) when `now - last_sent` is 24h + 1s, and
snoozed with no mutation when it is 24h - 1s. -/
theorem resend_boundary_24h (now : Int) (v1 v2 : IssueData) (res : CheckResult)
    (ha : isAlertStatus res.status = true)
    (h1 : now - v1.last_sent = 86401) (h2 : now - v2.last_sent = 86399) :
    process_and_send now [(issueId res, v1)] [res]
        = ([(issueId res, { v1 with count := v1.count + 1, last_sent := now })],
           [(res.domain, [{ res := res, alert_count := v1.count + 1 }])]) ∧
      process_and_send now [(issueId res, v2)] [res] = ([(issueId res, v2)], []) := by
  constructor
  · have hfind : storeFind [(issueId res, v1)] (issueId res) = some v1 := by
      simp [storeFind]
    have hrun : runState now [(issueId res, v1)] [res]
        = { store := [(issueId res, { v1 with count := v1.count + 1, last_sent := now })],
            currentIds := [issueId res],
            alerts := [{ res := res, alert_count := v1.count + 1 }] } := by
      show processResult now ⟨[(issueId res, v1)], [], []⟩ res = _
      rw [processResult_resend ha hfind (by omega)]
      simp [storeSet, addCurrentId]
    apply Prod.ext
    · rw [process_and_send_fst, hrun]
      simp
    · rw [process_and_send_snd, hrun]
      simp [groupByDomain, addToGroup]
  · have hfind : storeFind [(issueId res, v2)] (issueId res) = some v2 := by
      simp [storeFind]
    have hrun : runState now [(issueId res, v2)] [res]
        = { store := [(issueId res, v2)], currentIds := [issueId res], alerts := [] } := by
      show processResult now ⟨[(issueId res, v2)], [], []⟩ res = _
      rw [processResult_snooze ha hfind (by omega)]
      simp [addCurrentId]
    apply Prod.ext
    · rw [process_and_send_fst, hrun]
      simp
    · rw [process_and_send_snd, hrun]
      simp

/-- Witness for the resend boundary theorem at concrete inputs. -/
theorem resend_boundary_24h_witness :
    process_and_send 100000
        [(issueId { domain := "a.com", monitor := "ssl", status := .critical,
                    message := "boom", details := [] },
          { first_seen := 0, last_sent := 13599, count := 2,
            monitor := "ssl", domain := "a.com" })]
        [{ domain := "a.com", monitor := "ssl", status := .critical,
           message := "boom", details := [] }]
      = ([(issueId { domain := "a.com", monitor := "ssl", status := .critical,
                     message := "boom", details := [] },
           { first_seen := 0, last_sent := 100000, count := 3,
             monitor := "ssl", domain := "a.com" })],
         [("a.com",
           [{ res := { domain := "a.com", monitor := "ssl", status := .critical,
                       message := "boom", details := [] },
              alert_count := 3 }])]) ∧
    process_and_send 100000
        [(issueId { domain := "a.com", monitor := "ssl", status := .critical,
                    message := "boom", details := [] },
          { first_seen := 0, last_sent := 13601, count := 2,
            monitor := "ssl", domain := "a.com" })]
        [{ domain := "a.com", monitor := "ssl", status := .critical,
           message := "boom", details := [] }]
      = ([(issueId { domain := "a.com", monitor := "ssl", status := .critical,
                     message := "boom", details := [] },
          { first_seen := 0, last_sent := 13601, count := 2,
            monitor := "ssl", domain := "a.com" })], []) :=
  resend_boundary_24h 100000
    { first_seen := 0, last_sent := 13599, count := 2, monitor := "ssl", domain := "a.com" }
    { first_seen := 0, last_sent := 13601, count := 2, monitor := "ssl", domain := "a.com" }
    { domain := "a.com", monitor := "ssl", status := .critical,
      message := "boom", details := [] }
    (by decide) (by decide) (by decide)

/-- C6: a pair with no non-ok occurrence in cycle N has no record afterwards
(deleted / never created), and when it reports non-ok in cycle N+1 it is
treated as New: a fresh record with `count = 1` and a digest entry counted 1,
not a resend of the old count. -/
theorem resolved_then_recurring_is_new (now1 now2 : Int) (s : IssueStore)
    (results1 : List CheckResult) (res : CheckResult)
    (h1 : ∀ r ∈ results1, isAlertStatus r.status = true → issueId r ≠ issueId res)
    (h2 : isAlertStatus res.status = true) :
    storeFind (process_and_send now1 s results1).1 (issueId res) = none ∧
      process_and_send now2 (process_and_send now1 s results1).1 [res]
        = ([(issueId res,
             { first_seen := now2, last_sent := now2, count := 1,
               monitor := res.monitor, domain := res.domain })],
           [(res.domain, [{ res := res, alert_count := 1 }])]) := by
  have hnone : storeFind (process_and_send now1 s results1).1 (issueId res) = none := by
    cases hv : storeFind (process_and_send now1 s results1).1 (issueId res) with
    | none => rfl
    | some v =>
      obtain ⟨r, hr, ha, hid⟩ :=
        (process_and_send_keys now1 s results1 (issueId res)).mp ⟨v, hv⟩
      exact absurd hid (h1 r hr ha)
  refine ⟨hnone, ?_⟩
  set s1 := (process_and_send now1 s results1).1 with hs1
  set data : IssueData :=
    { first_seen := now2, last_sent := now2, count := 1,
      monitor := res.monitor, domain := res.domain } with hdata
  have hrun : runState now2 s1 [res]
      = { store := s1 ++ [(issueId res, data)],
          currentIds := [issueId res],
          alerts := [{ res := res, alert_count := 1 }] } := by
    show processResult now2 ⟨s1, [], []⟩ res = _
    rw [processResult_new h2 hnone]
    rw [storeSet_of_not_found hnone]
    simp [addCurrentId]
  have hallne : ∀ kv ∈ s1, kv.1 ≠ issueId res := storeFind_eq_none_iff.mp hnone
  apply Prod.ext
  · rw [process_and_send_fst, hrun]
    simp only [List.filter_append]
    have hfl : s1.filter (fun kv => kv.1 ∈ [issueId res]) = [] := by
      rw [List.filter_eq_nil_iff]
      intro kv hkv
      simp only [List.mem_singleton, decide_eq_true_eq]
      exact hallne kv hkv
    rw [hfl]
    simp
  · rw [process_and_send_snd, hrun]
    simp [groupByDomain, addToGroup]

/-- Witness for the resolved-then-recurring theorem: a pair with an old
record (count 3) reports ok in cycle N, so the record is deleted, and its
non-ok recurrence in cycle N+1 is New with count 1. -/
theorem resolved_then_recurring_is_new_witness :
    storeFind
        (process_and_send 50
          [("a.com:ssl",
            { first_seen := 0, last_sent := 0, count := 3,
              monitor := "ssl", domain := "a.com" })]
          [{ domain := "a.com", monitor := "ssl", status := .ok,
             message := "fine", details := [] }]).1
        (issueId { domain := "a.com", monitor := "ssl", status := .critical,
                   message := "bad", details := [] }) = none ∧
      process_and_send 60
          (process_and_send 50
            [("a.com:ssl",
              { first_seen := 0, last_sent := 0, count := 3,
                monitor := "ssl", domain := "a.com" })]
            [{ domain := "a.com", monitor := "ssl", status := .ok,
               message := "fine", details := [] }]).1
          [{ domain := "a.com", monitor := "ssl", status := .critical,
             message := "bad", details := [] }]
        = ([(issueId { domain := "a.com", monitor := "ssl", status := .critical,
                       message := "bad", details := [] },
             { first_seen := 60, last_sent := 60, count := 1,
               monitor := "ssl", domain := "a.com" })],
           [("a.com",
             [{ res := { domain := "a.com", monitor := "ssl", status := .critical,
                         message := "bad", details := [] },
                alert_count := 1 }])]) :=
  resolved_then_recurring_is_new 50 60
    [("a.com:ssl",
      { first_seen := 0, last_sent := 0, count := 3, monitor := "ssl", domain := "a.com" })]
    [{ domain := "a.com", monitor := "ssl", status := .ok, message := "fine", details := [] }]
    { domain := "a.com", monitor := "ssl", status := .critical,
      message := "bad", details := [] }
    (by decide) (by decide)

/-- C4: running the alert state machine a second time immediately (same
`now`, same results, on the state the first run saved) mutates no record and
sends nothing: the second run returns the same state and an empty digest
list, since every non-ok pair is snoozed. -/
theorem alert_state_machine_idempotent (now : Int) (s : IssueStore)
    (results : List CheckResult) :
    process_and_send now (process_and_send now s results).1 results
      = ((process_and_send now s results).1, []) := by
  set s1 := (process_and_send now s results).1 with hs1
  have hgood : goodState now (runState now s results) :=
    goodState_foldl now results ⟨s, [], []⟩ (by intro k hk; simp at hk)
  have hsnz : ∀ r ∈ results, isAlertStatus r.status = true →
      ∃ v, storeFind s1 (issueId r) = some v ∧ ¬(now - v.last_sent > 86400) := by
    intro r hr ha
    have hmemid : issueId r ∈ (runState now s results).currentIds :=
      (currentIds_foldl results ⟨s, [], []⟩).mpr (Or.inr ⟨r, hr, ha, rfl⟩)
    obtain ⟨v, hv, hb⟩ := hgood (issueId r) hmemid
    refine ⟨v, ?_, by omega⟩
    rw [hs1, process_and_send_fst, storeFind_filter, if_pos hmemid]
    exact hv
  have hrun2 := foldl_snoozed now results ⟨s1, [], []⟩ hsnz
  have hstore2 : (runState now s1 results).store = s1 := hrun2.1
  have halerts2 : (runState now s1 results).alerts = [] := hrun2.2
  apply Prod.ext
  · rw [process_and_send_fst, hstore2]
    rw [List.filter_eq_self]
    intro kv hkv
    have hkv1 : kv.1 ∈ (runState now s results).currentIds := by
      rw [hs1, process_and_send_fst] at hkv
      exact of_decide_eq_true (List.mem_filter.mp hkv).2
    have hex : ∃ r ∈ results, isAlertStatus r.status = true ∧ issueId r = kv.1 := by
      rcases (currentIds_foldl results ⟨s, [], []⟩).mp hkv1 with hc | hc
      · simp at hc
      · exact hc
    have : kv.1 ∈ (runState now s1 results).currentIds :=
      (currentIds_foldl results ⟨s1, [], []⟩).mpr (Or.inr hex)
    exact decide_eq_true this
  · rw [process_and_send_snd, if_pos halerts2]

theorem repeatLabel_new_iff {a : Alert} (h : 1 ≤ a.alert_count) :
    repeatLabel a = "(New)" ↔ a.alert_count = 1 := by
  rw [repeatLabel]
  by_cases hc : a.alert_count > 1
  · rw [if_pos hc]
    constructor
    · intro he
      exfalso
      have hlen := congrArg String.length he
      rw [String.length_append, String.length_append] at hlen
      have hn : ("(New)" : String).length = 5 := rfl
      have h10 : ("(Repeated " : String).length = 10 := rfl
      have h2 : ("x)" : String).length = 2 := rfl
      omega
    · intro he
      omega
  · rw [if_neg hc]
    exact ⟨fun _ => by omega, fun _ => rfl⟩

/-- Counterexample to the sortedness part of the digest claim: a cycle whose
results list a warning before a critical for the same domain produces a
digest whose entries keep that order, so a critical entry follows a
non-critical one. -/
theorem digest_not_severity_sorted :
    (process_and_send 0 []
        [{ domain := "d.com", monitor := "ssl", status := .warning,
           message := "w", details := [] },
         { domain := "d.com", monitor := "dns", status := .critical,
           message := "c", details := [] }]).2
      = [("d.com",
          [{ res := { domain := "d.com", monitor := "ssl", status := .warning,
                      message := "w", details := [] }, alert_count := 1 },
           { res := { domain := "d.com", monitor := "dns", status := .critical,
                      message := "c", details := [] }, alert_count := 1 }])] ∧
    noCriticalAfterNonCritical
        [{ res := { domain := "d.com", monitor := "ssl", status := .warning,
                    message := "w", details := [] }, alert_count := 1 },
         { res := { domain := "d.com", monitor := "dns", status := .critical,
                    message := "c", details := [] }, alert_count := 1 }] = false := by
  constructor
  · rfl
  · rfl

/-- C2 amended: all New/Resend alerts of a cycle sharing a domain form
exactly one digest, whose entries appear in processing order (the code does
not sort them by severity or monitor); each entry's count is at least 1 and
is annotated `"(New)"` exactly when it equals 1; and no digest is emitted
for a domain without New/Resend entries. -/
theorem digest_grouping_amended (now : Int) (s : IssueStore) (results : List CheckResult) :
    (((process_and_send now s results).2.map Prod.fst).Nodup) ∧
    (∀ p ∈ (process_and_send now s results).2,
        p.2 = (cycleAlerts now s results).filter (fun a => a.res.domain = p.1) ∧ p.2 ≠ []) ∧
    (∀ d, (∃ p ∈ (process_and_send now s results).2, p.1 = d) ↔
        ∃ a ∈ cycleAlerts now s results, a.res.domain = d) ∧
    (∀ p ∈ (process_and_send now s results).2, ∀ a ∈ p.2,
        1 ≤ a.alert_count ∧ (repeatLabel a = "(New)" ↔ a.alert_count = 1)) := by
  have hca : cycleAlerts now s results = (runState now s results).alerts := rfl
  have hcount : ∀ a ∈ (runState now s results).alerts, 1 ≤ a.alert_count :=
    alerts_count_foldl results ⟨s, [], []⟩ (by intro a ha; simp at ha)
  rw [process_and_send_snd]
  by_cases hemp : (runState now s results).alerts = []
  · rw [if_pos hemp]
    refine ⟨by simp, by simp, ?_, by simp⟩
    intro d
    constructor
    · rintro ⟨p, hp, _⟩
      simp at hp
    · rintro ⟨a, ha, _⟩
      rw [hca, hemp] at ha
      simp at ha
  · rw [if_neg hemp, groupByDomain_eq]
    refine ⟨?_, ?_, ?_, ?_⟩
    · have hmf : (groupsOf (runState now s results).alerts).map Prod.fst
          = domOrder (runState now s results).alerts := by
        rw [groupsOf, List.map_map]
        have hfun : (Prod.fst ∘ fun d : String =>
            (d, (runState now s results).alerts.filter (fun b => b.res.domain = d))) = id :=
          funext fun d => rfl
        rw [hfun, List.map_id]
      rw [hmf]
      exact domOrder_nodup _
    · intro p hp
      rw [groupsOf] at hp
      obtain ⟨d, hd, rfl⟩ := List.mem_map.mp hp
      refine ⟨rfl, ?_⟩
      obtain ⟨a, haA, had⟩ := (domOrder_mem _ d).mp hd
      intro hcon
      have hmem : a ∈ (runState now s results).alerts.filter
          (fun b => b.res.domain = d) :=
        List.mem_filter.mpr ⟨haA, by simp [had]⟩
      rw [show ((d, (runState now s results).alerts.filter
            (fun b => b.res.domain = d)) : String × List Alert).2
          = (runState now s results).alerts.filter (fun b => b.res.domain = d) from rfl]
        at hcon
      rw [hcon] at hmem
      simp at hmem
    · intro d
      constructor
      · rintro ⟨p, hp, hpd⟩
        rw [groupsOf] at hp
        obtain ⟨d', hd', heq⟩ := List.mem_map.mp hp
        subst heq
        have hd'd : d' = d := hpd
        subst hd'd
        rw [hca]
        exact (domOrder_mem _ d').mp hd'
      · rintro ⟨a, ha, had⟩
        rw [hca] at ha
        have hd : d ∈ domOrder (runState now s results).alerts :=
          (domOrder_mem _ d).mpr ⟨a, ha, had⟩
        refine ⟨(d, (runState now s results).alerts.filter
            (fun b => b.res.domain = d)), ?_, rfl⟩
        rw [groupsOf]
        exact List.mem_map.mpr ⟨d, hd, rfl⟩
    · intro p hp a hap
      rw [groupsOf] at hp
      obtain ⟨d, hd, rfl⟩ := List.mem_map.mp hp
      have haA : a ∈ (runState now s results).alerts :=
        (List.mem_filter.mp hap).1
      have h1 := hcount a haA
      exact ⟨h1, repeatLabel_new_iff h1⟩

section BlacklistLemmas

theorem processRblAnswers_cons (rbl : String) (a : String) (rest : List String)
    (listed : List String) :
    processRblAnswers rbl (a :: rest) listed =
      processRblAnswers rbl rest
        (if strStartsWith a "127.255.255." then listed
         else if a = "127.0.0.10" ∨ a = "127.0.0.11" then listed
         else if rbl ∈ listed then listed else listed ++ [rbl]) := by
  simp only [processRblAnswers, List.foldl_cons]

theorem processRblAnswers_reserved (rbl : String) (ans : List String)
    (listed : List String) (h : ∀ a ∈ ans, reservedRblCode a = true) :
    processRblAnswers rbl ans listed = listed := by
  induction ans generalizing listed with
  | nil => rfl
  | cons a rest ih =>
    have ha := h a (List.mem_cons_self a rest)
    have hstep : (if strStartsWith a "127.255.255." then listed
        else if a = "127.0.0.10" ∨ a = "127.0.0.11" then listed
        else if rbl ∈ listed then listed else listed ++ [rbl]) = listed := by
      by_cases hs : strStartsWith a "127.255.255." = true
      · rw [if_pos hs]
      · rw [if_neg hs]
        have hor : a = "127.0.0.10" ∨ a = "127.0.0.11" := by
          rw [reservedRblCode] at ha
          simp only [Bool.or_eq_true, decide_eq_true_eq] at ha
          rcases ha with (hcon | h1) | h1
          · exact absurd hcon hs
          · exact Or.inl h1
          · exact Or.inr h1
        rw [if_pos hor]
    rw [processRblAnswers_cons, hstep]
    exact ih listed (fun b hb => h b (List.mem_cons_of_mem a hb))

theorem check_blacklist_lists_reserved_aux (query : String → Except RblError (List String))
    (ip : String) (rbls : List String) (acc : List String × List String)
    (hq : ∀ rbl ∈ rbls, ∀ ans, query (reverseIp ip ++ "." ++ rbl) = .ok ans →
      ∀ a ∈ ans, reservedRblCode a = true)
    (hacc : acc.1 = []) :
    (rbls.foldl
      (fun acc rbl =>
        match query (reverseIp ip ++ "." ++ rbl) with
        | .ok answers => (processRblAnswers rbl answers acc.1, acc.2)
        | .error .nxdomain => acc
        | .error .noAnswer => acc
        | .error (.otherErr msg) => (acc.1, acc.2 ++ [rbl ++ ": " ++ msg])) acc).1 = [] := by
  induction rbls generalizing acc with
  | nil => exact hacc
  | cons rbl rest ih =>
    rw [List.foldl_cons]
    cases hqr : query (reverseIp ip ++ "." ++ rbl) with
    | ok ans =>
      simp only [hqr]
      refine ih _ (fun r hr => hq r (List.mem_cons_of_mem rbl hr)) ?_
      show processRblAnswers rbl ans acc.1 = []
      rw [processRblAnswers_reserved rbl ans acc.1
        (hq rbl (List.mem_cons_self rbl rest) ans hqr)]
      exact hacc
    | error err =>
      cases err with
      | nxdomain =>
        simp only [hqr]
        exact ih acc (fun r hr => hq r (List.mem_cons_of_mem rbl hr)) hacc
      | noAnswer =>
        simp only [hqr]
        exact ih acc (fun r hr => hq r (List.mem_cons_of_mem rbl hr)) hacc
      | otherErr msg =>
        simp only [hqr]
        exact ih _ (fun r hr => hq r (List.mem_cons_of_mem rbl hr)) hacc

end BlacklistLemmas

/-- C8: reserved RBL answer addresses (`127.255.255.*` query-blocked codes
and the `127.0.0.10` / `127.0.0.11` policy listings) are excluded from the
listed set — an answer list of only reserved addresses adds nothing — so a
run in which every RBL answers only with reserved addresses ends with an
empty `listed_in` and an `ok` (not critical) status. -/
theorem blacklist_reserved_codes_excluded (rbls : List String)
    (query : String → Except RblError (List String)) (ip : String)
    (rbl0 : String) (ans0 listed0 : List String)
    (hq : ∀ rbl ∈ rbls, ∀ ans, query (reverseIp ip ++ "." ++ rbl) = .ok ans →
      ∀ a ∈ ans, reservedRblCode a = true)
    (h0 : ∀ a ∈ ans0, reservedRblCode a = true) :
    processRblAnswers rbl0 ans0 listed0 = listed0 ∧
      (check_blacklist_lists rbls query ip).1 = [] ∧
      check_blacklist_status rbls query ip = .ok := by
  have hlists : (check_blacklist_lists rbls query ip).1 = [] :=
    check_blacklist_lists_reserved_aux query ip rbls ([], []) hq rfl
  refine ⟨processRblAnswers_reserved rbl0 ans0 listed0 h0, hlists, ?_⟩
  rw [check_blacklist_status, if_pos hlists]

/-- Witness: one RBL answering only the reserved `127.255.255.1` code is not
counted as a listing and the status stays `ok`. -/
theorem blacklist_reserved_codes_excluded_witness :
    processRblAnswers "zen.spamhaus.org" ["127.255.255.1", "127.0.0.10"] [] = [] ∧
      (check_blacklist_lists ["zen.spamhaus.org"]
        (fun _ => .ok ["127.255.255.1", "127.0.0.10"]) "1.2.3.4").1 = [] ∧
      check_blacklist_status ["zen.spamhaus.org"]
        (fun _ => .ok ["127.255.255.1", "127.0.0.10"]) "1.2.3.4" = .ok :=
  blacklist_reserved_codes_excluded ["zen.spamhaus.org"]
    (fun _ => .ok ["127.255.255.1", "127.0.0.10"]) "1.2.3.4"
    "zen.spamhaus.org" ["127.255.255.1", "127.0.0.10"] []
    (by
      intro rbl hrbl ans hans a hmem
      have hans2 : (["127.255.255.1", "127.0.0.10"] : List String) = ans := by
        injection hans
      rw [← hans2] at hmem
      rcases List.mem_cons.mp hmem with rfl | hmem2
      · decide
      · rcases List.mem_singleton.mp hmem2 with rfl
        decide)
    (by
      intro a hmem
      rcases List.mem_cons.mp hmem with rfl | hmem2
      · decide
      · rcases List.mem_singleton.mp hmem2 with rfl
        decide)

/-- Counterexample to the aggregator failure-semantics claim: an exception
raised by the SSL adapter is not caught at the aggregator boundary — it
aborts the whole cycle, dropping every result (including the whole second
domain) instead of being converted to a `status=error` result. -/
def cfgAllEnabled : MonitorsEnabled :=
  { domain := true, ssl := true, dns := true, security := true, blacklist := true }

/-- A placeholder ok-result used by concrete counterexample monitors. -/
def okRes (mon : String) : CheckResult :=
  { domain := "x", monitor := mon, status := .ok, message := "m", details := [] }

/-- Concrete monitors whose SSL adapter always raises. -/
def sslFaultMonitors : Monitors :=
  { checkDomain := fun _ => .ok (okRes "domain"),
    checkSsl := fun _ => .error "boom",
    checkDns := fun _ => .ok (okRes "dns"),
    checkSecurity := fun _ => .ok (okRes "security"),
    checkBlacklist := fun _ => .ok (okRes "blacklist") }

theorem adapter_fault_aborts_cycle :
    runCycle cfgAllEnabled sslFaultMonitors (fun _ => true) ["a.com", "b.com"]
      = .error "boom" := rfl

section AggregatorLemmas

theorem processDomain_totalMonitors_length (cfg : MonitorsEnabled)
    (f1 f2 f3 f4 f5 : String → CheckResult) (resolves : String → Bool) (raw : String) :
    ∃ l, processDomain cfg (totalMonitors f1 f2 f3 f4 f5) resolves raw = .ok l ∧
      l.length = enabledCount cfg := by
  obtain ⟨d, sl, dn, se, bl⟩ := cfg
  cases hc : get_connectable_hostname resolves (cleanDomainS raw) with
  | some h =>
    cases d <;> cases sl <;> cases dn <;> cases se <;> cases bl <;>
      simp [processDomain, totalMonitors, enabledCount, hc]
  | none =>
    cases d <;> cases sl <;> cases dn <;> cases se <;> cases bl <;>
      simp [processDomain, totalMonitors, enabledCount, hc]

theorem processDomain_domainFault_length (cfg : MonitorsEnabled) (e : String)
    (f2 f3 f4 f5 : String → CheckResult) (resolves : String → Bool) (raw : String) :
    ∃ l, processDomain cfg (domainFaultMonitors e f2 f3 f4 f5) resolves raw = .ok l ∧
      l.length = enabledCountNonDomain cfg := by
  obtain ⟨d, sl, dn, se, bl⟩ := cfg
  cases hc : get_connectable_hostname resolves (cleanDomainS raw) with
  | some h =>
    cases d <;> cases sl <;> cases dn <;> cases se <;> cases bl <;>
      simp [processDomain, domainFaultMonitors, enabledCountNonDomain, hc]
  | none =>
    cases d <;> cases sl <;> cases dn <;> cases se <;> cases bl <;>
      simp [processDomain, domainFaultMonitors, enabledCountNonDomain, hc]

theorem runCycle_length (cfg : MonitorsEnabled) (m : Monitors) (resolves : String → Bool)
    (n : Nat)
    (hper : ∀ raw, ∃ l, processDomain cfg m resolves raw = .ok l ∧ l.length = n) :
    ∀ raws : List String, ∃ L, runCycle cfg m resolves raws = .ok L ∧
      L.length = raws.length * n := by
  intro raws
  induction raws with
  | nil => exact ⟨[], rfl, by simp⟩
  | cons raw rest ih =>
    obtain ⟨l, hl, hlen⟩ := hper raw
    obtain ⟨L, hL, hLlen⟩ := ih
    refine ⟨l ++ L, ?_, ?_⟩
    · rw [runCycle, hl, hL]
    · rw [List.length_append, hlen, hLlen, List.length_cons, Nat.succ_mul]
      omega

end AggregatorLemmas

/-- C1 amended: each check adapter converts its own internal failures to a
`status=error` result, so with never-raising adapters the cycle completes
and appends exactly one result per enabled monitor per domain; at the
aggregator boundary only the domain-monitor call is additionally guarded,
and an exception there is logged and appends nothing — the remaining
adapters and domains still run — while an exception escaping any other
adapter would abort the cycle. -/
theorem aggregator_fault_handling_amended (cfg : MonitorsEnabled)
    (f1 f2 f3 f4 f5 : String → CheckResult) (e : String) (resolves : String → Bool)
    (raws : List String) :
    (∃ L, runCycle cfg (totalMonitors f1 f2 f3 f4 f5) resolves raws = .ok L ∧
      L.length = raws.length * enabledCount cfg) ∧
    (∃ L, runCycle cfg (domainFaultMonitors e f2 f3 f4 f5) resolves raws = .ok L ∧
      L.length = raws.length * enabledCountNonDomain cfg) :=
  ⟨runCycle_length cfg (totalMonitors f1 f2 f3 f4 f5) resolves (enabledCount cfg)
      (fun raw => processDomain_totalMonitors_length cfg f1 f2 f3 f4 f5 resolves raw) raws,
    runCycle_length cfg (domainFaultMonitors e f2 f3 f4 f5) resolves
      (enabledCountNonDomain cfg)
      (fun raw => processDomain_domainFault_length cfg e f2 f3 f4 f5 resolves raw) raws⟩

/-- C7: when neither the cleaned hostname nor its `www.` variant resolves,
the connectable target is absent: the cycle's output is independent of the
SSL and security adapters (they are never invoked), and any successful
per-domain result list contains the synthetic `critical` /
`"DNS Resolution Failed"` entries for the enabled ssl and security checks. -/
theorem dns_failure_synthetic_results (cfg : MonitorsEnabled) (m m' : Monitors)
    (resolves : String → Bool) (raw : String) (l : List CheckResult)
    (h1 : resolves (cleanDomainS raw) = false)
    (h2 : resolves ("www." ++ cleanDomainS raw) = false)
    (hmd : m.checkDomain = m'.checkDomain) (hmn : m.checkDns = m'.checkDns)
    (hmb : m.checkBlacklist = m'.checkBlacklist)
    (hok : processDomain cfg m resolves raw = .ok l) :
    processDomain cfg m resolves raw = processDomain cfg m' resolves raw ∧
    (cfg.ssl = true → dnsFailResult (cleanDomainS raw) "ssl" ∈ l) ∧
    (cfg.security = true → dnsFailResult (cleanDomainS raw) "security" ∈ l) := by
  have hc : get_connectable_hostname resolves (cleanDomainS raw) = none := by
    simp [get_connectable_hostname, h1, h2]
  refine ⟨?_, ?_⟩
  · simp only [processDomain, hc, hmd, hmn, hmb]
  · obtain ⟨d, sl, dn, se, bl⟩ := cfg
    cases hd : m.checkDomain (get_parent_domain (cleanDomainS raw)) <;>
      cases hn : m.checkDns (get_parent_domain (cleanDomainS raw)) <;>
        cases hb : m.checkBlacklist (cleanDomainS raw) <;>
          cases d <;> cases sl <;> cases dn <;> cases se <;> cases bl <;>
            simp [processDomain, hc, hd, hn, hb] at hok <;>
              (subst hok; constructor <;> intro hant <;> simp_all)

/-- A variant of `sslFaultMonitors` with different SSL and security adapters
(same domain/DNS/blacklist adapters). -/
def altMonitors : Monitors :=
  { sslFaultMonitors with
    checkSsl := fun _ => .ok (okRes "ssl"),
    checkSecurity := fun _ => .error "other" }

/-- The per-domain output of a cycle whose resolver fails for `a.com` and
`www.a.com`, with all monitors enabled. -/
def c7List : List CheckResult :=
  [{ domain := "a.com", monitor := "domain", status := .ok, message := "m", details := [] },
   dnsFailResult "a.com" "ssl",
   { domain := "a.com", monitor := "dns", status := .ok, message := "m", details := [] },
   dnsFailResult "a.com" "security",
   { domain := "a.com", monitor := "blacklist", status := .ok, message := "m", details := [] }]

/-- Witness for the DNS-failure theorem at a concrete domain: the output is
the same under two monitor sets differing in their SSL/security adapters,
and contains both synthetic results. -/
theorem dns_failure_synthetic_results_witness :
    processDomain cfgAllEnabled sslFaultMonitors (fun _ => false) "a.com"
        = processDomain cfgAllEnabled altMonitors (fun _ => false) "a.com" ∧
      (cfgAllEnabled.ssl = true → dnsFailResult (cleanDomainS "a.com") "ssl" ∈ c7List) ∧
      (cfgAllEnabled.security = true →
        dnsFailResult (cleanDomainS "a.com") "security" ∈ c7List) :=
  dns_failure_synthetic_results cfgAllEnabled sslFaultMonitors altMonitors
    (fun _ => false) "a.com" c7List rfl rfl rfl rfl rfl (by rfl)
